import Mathlib

/-!
Automa.jl documentation search index (release-0.5).

The repository file `release-0.5/search_index.js` is a single JavaScript
statement binding `documenterSearchIndex` to an object literal.  It is embedded
here as a value of a small JSON syntax tree, entry by entry and field by field
in the order of the file.  String escapes of the file are kept as the
characters they denote; braces, apostrophes, backquotes and non-ASCII
characters are written as numeric escapes.
-/

namespace SearchIndex

/-- Values of a JavaScript object literal as they occur in data files. -/
inductive JSON where
  | null : JSON
  | bool : Bool → JSON
  | num : Int → JSON
  | str : String → JSON
  | arr : List JSON → JSON
  | obj : List (String × JSON) → JSON

/-- Entry 0 of the "docs" array. -/
def doc0 : JSON :=
  .obj [
    ("location", .str "index.html#"),
    ("page", .str "Home"),
    ("title", .str "Home"),
    ("category", .str "page"),
    ("text", .str "")]

/-- Entry 1 of the "docs" array. -/
def doc1 : JSON :=
  .obj [
    ("location", .str "index.html#Automa.jl-1"),
    ("page", .str "Home"),
    ("title", .str "Automa.jl"),
    ("category", .str "section"),
    ("text", .str "")]

/-- Entry 2 of the "docs" array. -/
def doc2 : JSON :=
  .obj [
    ("location", .str "index.html#Overview-1"),
    ("page", .str "Home"),
    ("title", .str "Overview"),
    ("category", .str "section"),
    ("text", .str "Automa.jl is a package for generating finite-state machines (FSMs) and tokenizers in Julia.The following code is an example of tokenizing various kinds of numeric literals in Julia.import Automa\nimport Automa.RegExp: @re_str\nconst re = Automa.RegExp\n\n# Describe patterns in regular expression.\noct      = re\"0o[0-7]+\"\ndec      = re\"[-+]?[0-9]+\"\nhex      = re\"0x[0-9A-Fa-f]+\"\nprefloat = re\"[-+]?([0-9]+\\.[0-9]*|[0-9]*\\.[0-9]+)\"\nfloat    = prefloat | re.cat(prefloat | re\"[-+]?[0-9]+\", re\"[eE][-+]?[0-9]+\")\nnumber   = oct | dec | hex | float\nnumbers  = re.cat(re.opt(number), re.rep(re\" +\" * number), re\" *\")\n\n# Register action names to regular expressions.\nnumber.actions[:enter] = [:mark]\noct.actions[:exit]     = [:oct]\ndec.actions[:exit]     = [:dec]\nhex.actions[:exit]     = [:hex]\nfloat.actions[:exit]   = [:float]\n\n# Compile a finite-state machine.\nmachine = Automa.compile(numbers)\n\n# This generates a SVG file to visualize the state machine.\n# write(\"numbers.dot\", Automa.machine2dot(machine))\n# run(\x60dot -Tpng -o numbers.png numbers.dot\x60)\n\n# Bind an action code for each action name.\nactions = Dict(\n    :mark  => :(mark = p),\n    :oct   => :(emit(:oct)),\n    :dec   => :(emit(:dec)),\n    :hex   => :(emit(:hex)),\n    :float => :(emit(:float)),\n)\n\n# Generate a tokenizing function from the machine.\ncontext = Automa.CodeGenContext()\n@eval function tokenize(data::String)\n    tokens = Tuple\x7bSymbol,String\x7d[]\n    mark = 0\n    $(Automa.generate_init_code(context, machine))\n    p_end = p_eof = lastindex(data)\n    emit(kind) = push!(tokens, (kind, data[mark:p-1]))\n    $(Automa.generate_exec_code(context, machine, actions))\n    return tokens, cs == 0 ? :ok : cs < 0 ? :error : :incomplete\nend\n\ntokens, status = tokenize(\"1 0x0123BEEF 0o754 3.14 -1e4 +6.022045e23\")Finally, space-separated numbers are tokenized as follows:julia> tokens\n6-element Array\x7bTuple\x7bSymbol,String\x7d,1\x7d:\n (:dec,\"1\")\n (:hex,\"0x0123BEEF\")\n (:oct,\"0o754\")\n (:float,\"3.14\")\n (:float,\"1e-4\")\n (:float,\"+6.022045e23\")\n\njulia> status\n:ok\n(Image: )Automa.jl is composed of three elements: regular expressions, compilers, and code generators. Regular expressions are used to specify patterns that you want to match and bind actions to. A regular expression can be built using APIs provided from the Automa.RegExp module. The regular expression with actions is then fed to a compiler function that creates a finite state machine and optimizes it to minimize the number of states. Finally, the machine object is used to generate Julia code that can be spliced into functions.Machines are byte-oriented in a sense that input data fed into a machine is a sequence of bytes. The generated code of a machine reads input data byte by byte and updates a current state variable based on transition rules defined by regular expressions. If one or more actions are associated to a state transition they will be executed before reading a next byte. If no transition rule is found for a byte of a specific state the machine sets the current state to an error value, stops executing, and breaks from a loop.")]

/-- Entry 3 of the "docs" array. -/
def doc3 : JSON :=
  .obj [
    ("location", .str "index.html#Regular-expressions-1"),
    ("page", .str "Home"),
    ("title", .str "Regular expressions"),
    ("category", .str "section"),
    ("text", .str "Regular expressions in Automa.jl is somewhat more restricted than usual regular expressions in Julia. Some features like lookahead or backreference are not provided. In Automa.jl, re\"...\" is used instead of r\"...\" because these are different regular expressions. However, the syntax of Automa.jl\x27s regular expressions is a subset of Julia\x27s ones and hence it would be already familiar. Some examples are shown below:decimal    = re\"[-+]?[0-9]+\"\nkeyword    = re\"if|else|while|end\"\nidentifier = re\"[A-Za-z_][0-9A-Za-z_]*\"An important feature of regular expressions is composition of (sub-) regular expressions. One or more regular expressions can be composed using following functions:Function Alias Meaning\ncat(re...) * concatenation\nalt(re1, re2...) | alternation\nrep(re)  zero or more repetition\nrep1(re)  one or more repetition\nopt(re)  zero or one repetition\nisec(re1, re2) & intersection\ndiff(re1, re2) \\ difference (subtraction)\nneg(re) ! negationActions can be bind to regular expressions. Currently, there are four kinds of actions: enter, exit, :all and final. Enter actions will be executed when it enters the regular expression. In contrast, exit actions will be executed when it exits from the regular expression. All actions will be executed in all transitions and final actions will be executed every time when it reaches a final (or accept) state. The following code and figure demonstrate transitions and actions between states.using Automa\nusing Automa.RegExp: @re_str\nconst re = Automa.RegExp\n\nab = re\"ab*\"\nc = re\"c\"\npattern = re.cat(ab, c)\n\nab.actions[:enter] = [:enter_ab]\nab.actions[:exit]  = [:exit_ab]\nab.actions[:all]   = [:all_ab]\nab.actions[:final] = [:final_ab]\nc.actions[:enter]  = [:enter_c]\nc.actions[:exit]   = [:exit_c]\nc.actions[:final]  = [:final_c]\n\nwrite(\"actions.dot\", Automa.machine2dot(Automa.compile(pattern)))\nrun(\x60dot -Tpng -o src/figure/actions.png actions.dot\x60)(Image: )Transitions can be conditioned by actions that return a boolean value. Assigning a name to the when field of a regular expression can bind an action to all transitions within the regular expression as the following example shows.using Automa\nusing Automa.RegExp: @re_str\nconst re = Automa.RegExp\n\nab = re\"ab*\"\nab.when = :cond\nc = re\"c\"\npattern = re.cat(ab, c)\n\nwrite(\"preconditions.dot\", Automa.machine2dot(Automa.compile(pattern)))\nrun(\x60dot -Tpng -o src/figure/preconditions.png preconditions.dot\x60)(Image: )")]

/-- Entry 4 of the "docs" array. -/
def doc4 : JSON :=
  .obj [
    ("location", .str "index.html#Compilers-1"),
    ("page", .str "Home"),
    ("title", .str "Compilers"),
    ("category", .str "section"),
    ("text", .str "After finished defining a regular expression with optional actions you can compile it into a finite-state machine using the compile function. The Machine type is defined as follows:type Machine\n    start::Node\n    states::UnitRange\x7bInt\x7d\n    start_state::Int\n    final_states::Set\x7bInt\x7d\n    eof_actions::Dict\x7bInt,Set\x7bAction\x7d\x7d\nendFor the purpose of debugging, Automa.jl offers the execute function, which emulates the machine execution and returns the last state with the action log. Let\x27s execute a machine of re\"a*b\" with actions used in the previous example.julia> machine = Automa.compile(ab)\nAutoma.Machine(<states=1:3,start_state=1,final_states=Set([0,2])>)\n\njulia> Automa.execute(machine, \"b\")\n(2,Symbol[:enter_a,:exit_a,:enter_b,:final_b,:exit_b])\n\njulia> Automa.execute(machine, \"ab\")\n(2,Symbol[:enter_a,:final_a,:exit_a,:enter_b,:final_b,:exit_b])\n\njulia> Automa.execute(machine, \"aab\")\n(2,Symbol[:enter_a,:final_a,:final_a,:exit_a,:enter_b,:final_b,:exit_b])\nThe Tokenizer type is also a useful tool built on top of Machine:type Tokenizer\n    machine::Machine\n    actions_code::Vector\x7bTuple\x7bSymbol,Expr\x7d\x7d\nendA tokenizer can be created using the compile function as well but the argument types are different. When defining a tokenizer, compile takes a list of pattern and action pairs as follows:tokenizer = Automa.compile(\n    re\"if|else|while|end\"      => :(emit(:keyword)),\n    re\"[A-Za-z_][0-9A-Za-z_]*\" => :(emit(:identifier)),\n    re\"[0-9]+\"                 => :(emit(:decimal)),\n    re\"=\"                      => :(emit(:assign)),\n    re\"(\"                      => :(emit(:lparen)),\n    re\")\"                      => :(emit(:rparen)),\n    re\"[-+*/]\"                 => :(emit(:operator)),\n    re\"[\\n\\t ]+\"               => :(),\n)The order of arguments is used to resolve ambiguity of pattern matching. A tokenizer tries to find the longest token that is available from the current reading position. When multiple patterns match a substring of the same length, higher priority token placed at a former position in the arguments list will be selected. For example, \"else\" matches both :keyword and :identifier but the :keyword action will be run because it is placed before :identifier in the arguments list.Once a pattern is determined, the start and end positions of the token substring can be accessed via ts and te local variables in the action code. Other special variables (i.e. p, p_end, p_eof and cs) will be explained in the following section. See example/tokenizer.jl for a complete example.")]

/-- Entry 5 of the "docs" array. -/
def doc5 : JSON :=
  .obj [
    ("location", .str "index.html#Code-generators-1"),
    ("page", .str "Home"),
    ("title", .str "Code generators"),
    ("category", .str "section"),
    ("text", .str "Once a machine or a tokenizer is created it\x27s ready to generate Julia code using metaprogramming techniques.  Here is an example to count the number of words in a string:import Automa\nimport Automa.RegExp: @re_str\nconst re = Automa.RegExp\n\nword = re\"[A-Za-z]+\"\nwords = re.cat(re.opt(word), re.rep(re\" +\" * word), re\" *\")\n\nword.actions[:exit] = [:word]\n\nmachine = Automa.compile(words)\n\nactions = Dict(:word => :(count += 1))\n\n# Generate a function using @eval.\ncontext = Automa.CodeGenContext()\n@eval function count_words(data)\n    # initialize a result variable\n    count = 0\n\n    # generate code to initialize variables used by FSM\n    $(Automa.generate_init_code(context, machine))\n\n    # set end and EOF positions of data buffer\n    p_end = p_eof = lastindex(data)\n\n    # generate code to execute FSM\n    $(Automa.generate_exec_code(context, machine, actions))\n\n    # check if FSM properly finished\n    if cs != 0\n        error(\"failed to count words\")\n    end\n\n    return count\nendThis will work as we expect:julia> count_words(\"\")\n0\n\njulia> count_words(\"The\")\n1\n\njulia> count_words(\"The quick\")\n2\n\njulia> count_words(\"The quick brown\")\n3\n\njulia> count_words(\"The quick brown fox\")\n4\n\njulia> count_words(\"A!\")\nERROR: failed to count words\n in count_words(::String) at ./REPL[10]:16\nThere are two code-generating functions: generate_init_code and generate_exec_code. Both of them take a CodeGenContext object as the first argument and a Machine object as the second. The generate_init_code generates variable declatarions used by the finite state machine (FSM). julia> Automa.generate_init_code(context, machine)\nquote  # /Users/kenta/.julia/v0.6/Automa/src/codegen.jl, line 67:\n    p::Int = 1 # /Users/kenta/.julia/v0.6/Automa/src/codegen.jl, line 68:\n    p_end::Int = 0 # /Users/kenta/.julia/v0.6/Automa/src/codegen.jl, line 69:\n    p_eof::Int = -1 # /Users/kenta/.julia/v0.6/Automa/src/codegen.jl, line 70:\n    cs::Int = 1\nend\nThe input byte sequence is stored in the data variable, which, in this case, is passed as an argument. The data object must support Automa.pointerstart and Automa.pointerend methods. These point to the start and end memory positions, respectively. There are default implementations for these methods, which depend on Base.pointer and Base.sizeof methods. So, if data is a Vector\x7bUInt8\x7d or a String object, there is no need to implement them. But if you want to use your own type, you need to support them.The variable p points at the next byte position in data. p_end points at the end position of data available in data. p_eof is similar to p_end but it points at the actual end of the input sequence. In the example above, p_end and p_eof are soon set to sizeof(data) because these two values can be determined immediately.  p_eof would be undefined when data is too long to store in memory. In such a case, p_eof is set to a negative integer at the beginning and later set to a suitable position when the end of an input sequence is seen. The cs variable stores the current state of a machine.The generate_exec_code generates code that emulates the FSM execution by updating cs (current state) while reading bytes from data. You don\x27t need to care about the details of generated code because it is often too complicated to read for human. In short, the generated code tries to read as many bytes as possible from data and stops when it reaches p_end or when it fails transition.julia> Automa.generate_exec_code(context, machine, actions)\nquote  # /Users/kenta/.julia/v0.6/Automa/src/codegen.jl, line 116:\n    ##659 = (Automa.SizedMemory)(data) # /Users/kenta/.julia/v0.6/Automa/src/codegen.jl, line 117:\n    while p \u2264 p_end && cs > 0 # /Users/kenta/.julia/v0.6/Automa/src/codegen.jl, line 118:\n        ##660 = (getindex)(##659, p) # /Users/kenta/.julia/v0.6/Automa/src/codegen.jl, line 119:\n        @inbounds ##661 = ([0 0; 0 0; \u2026 ; 0 0; 0 0])[(cs - 1) << 8 + ##660 + 1] # /Users/kenta/.julia/v0.6/Automa/src/codegen.jl, line 120:\n        @inbounds cs = ([-1 -2; -1 -2; \u2026 ; -1 -2; -1 -2])[(cs - 1) << 8 + ##660 + 1] # /Users/kenta/.julia/v0.6/Automa/src/codegen.jl, line 121:\n        if ##661 == 1\n            count += 1\n        else\n            ()\n        end # /Users/kenta/.julia/v0.6/Automa/src/codegen.jl, line 122:\n        p += 1\n    end # /Users/kenta/.julia/v0.6/Automa/src/codegen.jl, line 124:\n    if p > p_eof \u2265 0 && cs \u2208 Set([2, 1]) # /Users/kenta/.julia/v0.6/Automa/src/codegen.jl, line 125:\n        if cs == 2\n            count += 1\n        else\n            if cs == 1\n            else\n                ()\n            end\n        end # /Users/kenta/.julia/v0.6/Automa/src/codegen.jl, line 126:\n        cs = 0\n    else  # /Users/kenta/.julia/v0.6/Automa/src/codegen.jl, line 127:\n        if cs < 0 # /Users/kenta/.julia/v0.6/Automa/src/codegen.jl, line 128:\n            p -= 1\n        end\n    end\nend\nAfter finished execution, the value stored in cs indicates whether the execution successfully finished or not. cs == 0 means the FSM read all data and finished successfully. cs < 0 means it failed somewhere. cs > 0 means it is still in the middle of execution and needs more input data if any. The following snippet is a pseudocode of the machine execution:# start main loop\nwhile p \u2264 p_end && cs > 0\n    l = \x7b\x7b read a byte of \x60data\x60 at position \x60p\x60 \x7d\x7d\n    if \x7b\x7b transferable from \x60cs\x60 with \x60l\x60 \x7d\x7d\n        cs = \x7b\x7b next state of \x60cs\x60 with \x60l\x60 \x7d\x7d\n        \x7b\x7b execute actions if any \x7d\x7d\n    else\n        cs = -cs\n    end\n    p += 1  # increment the position variable\nend\n\nif p_eof \u2265 0 && p > p_eof && cs \u2208 machine.final_states\n    \x7b\x7b execute EOF actions if any \x7d\x7d\n    cs = 0\nelseif cs < 0\n    p -= 1  # point at the last read byte\nendAutoma.jl has three kinds of code generators. The first and default one uses two lookup tables to pick up the next state and the actions for the current state and input. The second one expands these lookup tables into a series of if-else branches. The third one is based on @goto jumps. These three code generators are named as :table, :inline, and :goto, respectively. To sepcify a code generator, you can pass the code=:table|:inline|:goto argument to Automa.generate_exec_code. The generated code size and its runtime speed highly depends on the machine and actions. However, as a rule of thumb, the code size and the runtime speed follow this order (i.e. :table will generates the smallest but the slowest code while :goto will the largest but the fastest). Also, specifying check=false turns off bounds checking while executing and often improves the runtime performance slightly.")]

/-- Entry 6 of the "docs" array. -/
def doc6 : JSON :=
  .obj [
    ("location", .str "references.html#"),
    ("page", .str "References"),
    ("title", .str "References"),
    ("category", .str "page"),
    ("text", .str "")]

/-- Entry 7 of the "docs" array. -/
def doc7 : JSON :=
  .obj [
    ("location", .str "references.html#References-1"),
    ("page", .str "References"),
    ("title", .str "References"),
    ("category", .str "section"),
    ("text", .str "")]

/-- Entry 8 of the "docs" array. -/
def doc8 : JSON :=
  .obj [
    ("location", .str "references.html#Automa.SizedMemory"),
    ("page", .str "References"),
    ("title", .str "Automa.SizedMemory"),
    ("category", .str "type"),
    ("text", .str "SizedMemory(data)\n\nCreate a SizedMemory object from data.\n\ndata must implement Automa.pointerstart and Automa.pointerend methods. These are used to get the range of the contiguous data memory of data.  These have default methods which uses Base.pointer and Base.sizeof methods.  For example, String and Vector\x7bUInt8\x7d support these Base methods.\n\nNote that it is user\x27s responsibility to keep the data object alive during SizedMemory\x27s lifetime because it does not have a reference to the object.\n\n\n\n")]

/-- Entry 9 of the "docs" array. -/
def doc9 : JSON :=
  .obj [
    ("location", .str "references.html#Automa.pointerend"),
    ("page", .str "References"),
    ("title", .str "Automa.pointerend"),
    ("category", .str "function"),
    ("text", .str "pointerend(data)::Ptr\x7bUInt8\x7d\n\nReturn the end position of data.\n\nThe default implementation is Automa.pointerstart(data) + sizeof(data) - 1.\n\n\n\n")]

/-- Entry 10 of the "docs" array. -/
def doc10 : JSON :=
  .obj [
    ("location", .str "references.html#Automa.pointerstart"),
    ("page", .str "References"),
    ("title", .str "Automa.pointerstart"),
    ("category", .str "function"),
    ("text", .str "pointerstart(data)::Ptr\x7bUInt8\x7d\n\nReturn the start position of data.\n\nThe default implementation is convert(Ptr\x7bUInt8\x7d, pointer(data)).\n\n\n\n")]

/-- Entry 11 of the "docs" array. -/
def doc11 : JSON :=
  .obj [
    ("location", .str "references.html#Data-1"),
    ("page", .str "References"),
    ("title", .str "Data"),
    ("category", .str "section"),
    ("text", .str "Automa.SizedMemory\nAutoma.pointerend\nAutoma.pointerstart")]

/-- Entry 12 of the "docs" array. -/
def doc12 : JSON :=
  .obj [
    ("location", .str "references.html#Automa.Variables"),
    ("page", .str "References"),
    ("title", .str "Automa.Variables"),
    ("category", .str "type"),
    ("text", .str "Variable names used in generated code.\n\nThe following variable names may be used in the code.\n\np::Int: current position of data\np_end::Int: end position of data\np_eof::Int: end position of file stream\nts::Int: start position of token (tokenizer only)\nte::Int: end position of token (tokenizer only)\ncs::Int: current state\ndata::Any: input data\nmem::SizedMemory: input data memory\nbyte::UInt8: current data byte\n\n\n\n")]

/-- Entry 13 of the "docs" array. -/
def doc13 : JSON :=
  .obj [
    ("location", .str "references.html#Automa.CodeGenContext"),
    ("page", .str "References"),
    ("title", .str "Automa.CodeGenContext"),
    ("category", .str "type"),
    ("text", .str "CodeGenContext(;\n    vars=Variables(:p, :p_end, :p_eof, :ts, :te, :cs, :data, gensym(), gensym()),\n    generator=:table,\n    checkbounds=true,\n    loopunroll=0,\n    getbyte=Base.getindex,\n    clean=false\n)\n\nCreate a code generation context.\n\nArguments\n\nvars: variable names used in generated code\ngenerator: code generator (:table, :inline or :goto)\ncheckbounds: flag of bounds check\nloopunroll: loop unroll factor (\u2265 0)\ngetbyte: function of byte access (i.e. getbyte(data, p))\nclean: flag of code cleansing\n\n\n\n")]

/-- Entry 14 of the "docs" array. -/
def doc14 : JSON :=
  .obj [
    ("location", .str "references.html#Automa.generate_init_code"),
    ("page", .str "References"),
    ("title", .str "Automa.generate_init_code"),
    ("category", .str "function"),
    ("text", .str "generate_init_code(context::CodeGenContext, machine::Machine)::Expr\n\nGenerate variable initialization code.\n\n\n\n")]

/-- Entry 15 of the "docs" array. -/
def doc15 : JSON :=
  .obj [
    ("location", .str "references.html#Automa.generate_exec_code"),
    ("page", .str "References"),
    ("title", .str "Automa.generate_exec_code"),
    ("category", .str "function"),
    ("text", .str "generate_exec_code(ctx::CodeGenContext, machine::Machine, actions=nothing)::Expr\n\nGenerate machine execution code with actions.\n\n\n\n")]

/-- Entry 16 of the "docs" array. -/
def doc16 : JSON :=
  .obj [
    ("location", .str "references.html#Code-generator-1"),
    ("page", .str "References"),
    ("title", .str "Code generator"),
    ("category", .str "section"),
    ("text", .str "Automa.Variables\nAutoma.CodeGenContext\nAutoma.generate_init_code\nAutoma.generate_exec_code")]

/-- The value bound by `var documenterSearchIndex = ...` in `search_index.js`. -/
def documenterSearchIndex : JSON :=
  .obj [("docs", .arr [doc0, doc1, doc2, doc3, doc4, doc5, doc6, doc7, doc8,
    doc9, doc10, doc11, doc12, doc13, doc14, doc15, doc16])]

/-- Keys of an object literal, in order; `none` for anything but an object. -/
def JSON.keys : JSON → Option (List String)
  | .obj kvs => some (kvs.map Prod.fst)
  | _ => none

/-- Member access `v[k]` (first binding of the key). -/
def JSON.get? : JSON → String → Option JSON
  | .obj kvs, k => (kvs.find? fun kv => kv.1 == k).map Prod.snd
  | _, _ => none

/-- Elements of an array literal; `none` for anything but an array. -/
def JSON.elems : JSON → Option (List JSON)
  | .arr xs => some xs
  | _ => none

/-- String payload of a value; `none` for anything but a string. -/
def JSON.str? : JSON → Option String
  | .str s => some s
  | _ => none

/-- String-valued member access: `v[k]` when it is a string. -/
def JSON.field (v : JSON) (k : String) : Option String :=
  (v.get? k).bind JSON.str?

/-- The array `documenterSearchIndex.docs`. -/
def docs : List JSON :=
  ((documenterSearchIndex.get? "docs").bind JSON.elems).getD []


/-! ## Data model of the search engine

The repository ships only the data file; the engine that consumes it is
described in the specification (sections 3, 4 and 7).  The definitions below
follow that description.
-/

/-- Modelled from the spec: the `category` enumeration of a Record (section 3),
`enum{page, section, type, function}`; the repository has no declaration of
the record type. -/
inductive Category where
  | page
  | sect
  | type
  | function
  deriving DecidableEq, Repr

/-- Modelled from the spec: reading of a `category` string into the enumeration
of section 3; any other string is a value of the wrong type. -/
def Category.ofString? (s : String) : Option Category :=
  if s = "page" then some .page
  else if s = "section" then some .sect
  else if s = "type" then some .type
  else if s = "function" then some .function
  else none

/-- Modelled from the spec: the Record of section 3,
`{ location, page, title, category, text }`. -/
structure Record where
  location : String
  page : String
  title : String
  category : Category
  text : String
  deriving DecidableEq, Repr

/-- Modelled from the spec: the three error kinds of section 7. -/
inductive Error where
  | DuplicateLocationError
  | InvalidLimitError
  | MalformedRecordError
  deriving DecidableEq, Repr

/-- Modelled from the spec: ingestion of one raw entry (section 7,
`MalformedRecordError`: "any required field missing/wrong type").  The result
is `none` exactly when one of the five required fields is absent, is not a
string, or the category is outside the enumeration. -/
def parseRecord (v : JSON) : Option Record :=
  match v.field "location", v.field "page", v.field "title",
      (v.field "category").bind Category.ofString?, v.field "text" with
  | some location, some page, some title, some category, some text =>
      some ⟨location, page, title, category, text⟩
  | _, _, _, _, _ => none

/-- Modelled from the spec: ingestion of a batch (section 7): a malformed entry
is skipped and reported in the list of warnings, here the positions of the
offending entries paired with `MalformedRecordError`; the build is not aborted. -/
def ingestFrom : List JSON → Nat → List Record × List (Nat × Error)
  | [], _ => ([], [])
  | v :: vs, pos =>
    let rest := ingestFrom vs (pos + 1)
    match parseRecord v with
    | some r => (r :: rest.1, rest.2)
    | none => (rest.1, (pos, Error.MalformedRecordError) :: rest.2)

/-- Modelled from the spec: ingestion of a batch, positions counted from 0. -/
def ingest (vs : List JSON) : List Record × List (Nat × Error) :=
  ingestFrom vs 0

/-- The Record Store obtained from the shipped array. -/
def shippedRecords : List Record := (ingest docs).1

/-! ## Tokenizer (spec section 4.1) -/

/-- Modelled from the spec: the fixed stopword set of section 4.1. -/
def stopwords : List String :=
  ["the", "and", "of", "a", "is", "to", "in", "for", "or"]

/-- Closes the run collected so far (kept reversed) at offset `pos`: an empty
run yields nothing, otherwise the run with the offset of its first character. -/
def closeRun (run : List Char) (pos : Nat) : List (List Char × Nat) :=
  if run.isEmpty then [] else [(run.reverse, pos - run.length)]

/-- Modelled from the spec: "splits on non-alphanumeric boundaries" (section
4.1).  Scans the characters left to right; `pos` is the offset of the next
character and `run` the alphanumeric run being collected, reversed.  The
result lists the maximal alphanumeric runs with their starting offsets. -/
def splitRuns : List Char → Nat → List Char → List (List Char × Nat)
  | [], pos, run => closeRun run pos
  | c :: cs, pos, run =>
    if c.isAlphanum then splitRuns cs (pos + 1) (c :: run)
    else closeRun run pos ++ splitRuns cs (pos + 1) []

/-- Modelled from the spec: the noise filter of section 4.1: a term is kept
when it has at least 2 characters and is not a stopword. -/
def keepTerm (term : String) : Bool :=
  decide (2 ≤ term.length) && !stopwords.contains term

/-- Modelled from the spec: `tokenize(text) -> sequence of (term, offset)`
(section 4.1): split on non-alphanumeric boundaries, lowercase, drop terms
shorter than 2 characters and stopwords; offsets are character indices into
the original string. -/
def tokenize (text : String) : List (String × Nat) :=
  ((splitRuns text.data 0 []).map fun ro => (String.mk (ro.1.map Char.toLower), ro.2)).filter
    fun tk => keepTerm tk.1

/-- The terms of a string, offsets dropped. -/
def terms (text : String) : List String :=
  (tokenize text).map Prod.fst

/-! ## Index Builder (spec section 4.2) -/

/-- Modelled from the spec: the field tag of a Posting (section 3). -/
inductive Field where
  | title
  | text
  deriving DecidableEq, Repr

/-- Modelled from the spec: the Posting of section 3,
`{ recordId, field, positions }`. -/
structure Posting where
  recordId : Nat
  field : Field
  positions : List Nat
  deriving DecidableEq, Repr

/-- Modelled from the spec: the Inverted Index of section 3, a mapping from
Term to a set of Postings, kept as the list of its (term, posting) entries,
together with the Record Store the record ids refer to. -/
structure InvertedIndex where
  records : List Record
  entries : List (String × Posting)
  deriving Repr

/-- Modelled from the spec: postings of one field of one record (section 4.2):
one posting per distinct term, its positions being all offsets of that term in
the field. -/
def fieldPostings (id : Nat) (f : Field) (s : String) : List (String × Posting) :=
  (terms s).dedup.map fun t =>
    (t, ⟨id, f, ((tokenize s).filter fun tk => tk.1 == t).map Prod.snd⟩)

/-- Modelled from the spec: postings of one record: title and text are
tokenized independently (section 4.2). -/
def recordPostings (id : Nat) (r : Record) : List (String × Posting) :=
  fieldPostings id .title r.title ++ fieldPostings id .text r.text

/-- Modelled from the spec: postings of a sequence of records, record ids being
positions in the Record Store, counted from `id`. -/
def buildEntries : List Record → Nat → List (String × Posting)
  | [], _ => []
  | r :: rs, id => recordPostings id r ++ buildEntries rs (id + 1)

/-- Modelled from the spec: `buildIndex(records) -> index` (sections 4.2, 6):
fails with `DuplicateLocationError` if two records share a location, otherwise
returns the index over all records. -/
def buildIndex (rs : List Record) : Except Error InvertedIndex :=
  if (rs.map Record.location).Nodup then .ok ⟨rs, buildEntries rs 0⟩
  else .error .DuplicateLocationError

/-! ## Query Engine (spec section 4.3) -/

/-- Modelled from the spec: `field_weight(title) = 3`, `field_weight(text) = 1`. -/
def fieldWeight : Field → ℚ
  | .title => 3
  | .text => 1

/-- Modelled from the spec: `weight(exact) = 1.0`, `weight(prefix) = 0.5`, for
an indexed term `t` found by the query term `q`: the match is exact when the
two terms are equal and a prefix match otherwise. -/
def matchWeight (q t : String) : ℚ :=
  if t = q then 1 else 1 / 2

/-- Modelled from the spec: step 2 of section 4.3: the index entries of record
`id` whose term equals the query term or starts with it. -/
def matchesOf (idx : InvertedIndex) (id : Nat) (q : String) : List (String × Posting) :=
  idx.entries.filter fun e => e.2.recordId == id && q.data.isPrefixOf e.1.data

/-- Modelled from the spec: the weighted sum of section 4.3 for one query term,
`weight(term_match) * field_weight(field) * occurrence_count` over its matches. -/
def termScore (idx : InvertedIndex) (id : Nat) (q : String) : ℚ :=
  ((matchesOf idx id q).map fun e =>
    matchWeight q e.1 * fieldWeight e.2.field * (e.2.positions.length : ℚ)).sum

/-- Modelled from the spec: the distinct terms of a query (steps 1 and 2). -/
def queryTerms (query : String) : List String :=
  (terms query).dedup

/-- Modelled from the spec: the distinct query terms that match record `id`. -/
def matchedTerms (idx : InvertedIndex) (id : Nat) (qs : List String) : List String :=
  qs.filter fun q => !(matchesOf idx id q).isEmpty

/-- Modelled from the spec: the score of section 4.3, step 3: the bonus
`100 * distinctTermsMatched` plus the weighted sum over the query terms. -/
def score (idx : InvertedIndex) (id : Nat) (qs : List String) : ℚ :=
  100 * ((matchedTerms idx id qs).length : ℚ) + (qs.map (termScore idx id)).sum

/-- Modelled from the spec: a search result (section 6), without its snippet,
which is the work of the Snippet Extractor. -/
structure ScoredResult where
  location : String
  page : String
  title : String
  category : Category
  score : ℚ
  deriving DecidableEq

/-- Modelled from the spec: the records touched by a query term, with their
scores, in Record Store order; `id` is the id of the first record of the list. -/
def candidatesFrom (idx : InvertedIndex) (qs : List String) :
    List Record → Nat → List ScoredResult
  | [], _ => []
  | r :: rs, id =>
    if (matchedTerms idx id qs).isEmpty then candidatesFrom idx qs rs (id + 1)
    else ⟨r.location, r.page, r.title, r.category, score idx id qs⟩ ::
      candidatesFrom idx qs rs (id + 1)

/-- Modelled from the spec: the result order of section 4.3, step 4: descending
score, ties broken by ascending location. -/
def ranksBefore (a b : ScoredResult) : Prop :=
  b.score < a.score ∨ (a.score = b.score ∧ a.location ≤ b.location)

/-- Location order decided on the character lists of the two strings. -/
def decLocationLE (a b : String) : Decidable (a ≤ b) :=
  decidable_of_iff (a.data ≤ b.data) String.le_iff_toList_le.symm

instance : DecidableRel ranksBefore := fun a b =>
  @instDecidableOr _ _ inferInstance
    (@instDecidableAnd _ _ inferInstance (decLocationLE a.location b.location))

instance : IsTotal ScoredResult ranksBefore where
  total a b := by
    unfold ranksBefore
    rcases lt_trichotomy a.score b.score with h | h | h
    · exact Or.inr (Or.inl h)
    · rcases le_total a.location b.location with hl | hl
      · exact Or.inl (Or.inr ⟨h, hl⟩)
      · exact Or.inr (Or.inr ⟨h.symm, hl⟩)
    · exact Or.inl (Or.inl h)

instance : IsTrans ScoredResult ranksBefore where
  trans a b c := by
    unfold ranksBefore
    rintro (h₁ | ⟨h₁, l₁⟩) (h₂ | ⟨h₂, l₂⟩)
    · exact Or.inl (lt_trans h₂ h₁)
    · exact Or.inl (h₂ ▸ h₁)
    · exact Or.inl (h₁ ▸ h₂)
    · exact Or.inr ⟨h₁.trans h₂, le_trans l₁ l₂⟩

/-- Modelled from the spec: `search(index, query, limit)` (section 4.3): fails
with `InvalidLimitError` if `limit <= 0`; otherwise the touched records sorted
by `ranksBefore`, cut to at most `limit` results. -/
def search (idx : InvertedIndex) (query : String) (limit : Int) :
    Except Error (List ScoredResult) :=
  if limit ≤ 0 then .error .InvalidLimitError
  else .ok (((candidatesFrom idx (queryTerms query) idx.records 0).insertionSort
    ranksBefore).take limit.toNat)

/-- The locations of a search outcome, in result order. -/
def resultLocations : Except Error (List ScoredResult) → Option (List String)
  | .ok rs => some (rs.map ScoredResult.location)
  | .error _ => none

/-- The scores of a search outcome, in result order. -/
def resultScores : Except Error (List ScoredResult) → Option (List ℚ)
  | .ok rs => some (rs.map ScoredResult.score)
  | .error _ => none

/-- The two records of the end-to-end example of spec section 8.  The example
gives no category; the two categories are parameters. -/
def exampleRecords (c₁ c₂ : Category) : List Record :=
  [⟨"a#1", "Home", "Overview", c₁,
      "Automa.jl is a package for generating finite-state machines"⟩,
   ⟨"a#2", "Home", "Compilers", c₂,
      "compile a regular expression into a machine"⟩]

/-- The index of the end-to-end example: the Record Store and its entries. -/
def exampleIndex (c₁ c₂ : Category) : InvertedIndex :=
  ⟨exampleRecords c₁ c₂, buildEntries (exampleRecords c₁ c₂) 0⟩

/-! ## Quantities read off the shipped array -/

/-- The string field `k` of entry `i` of `documenterSearchIndex.docs`. -/
def fieldAt (i : Nat) (k : String) : Option String :=
  docs[i]?.bind fun v => v.field k

/-- File name of a page, as the locations of the shipped array spell it. -/
def file (page : String) : Option String :=
  if page = "Home" then some "index.html"
  else if page = "References" then some "references.html"
  else none

/-- The title with every space replaced by `-`. -/
def dashed (title : String) : String :=
  String.mk (title.data.map fun c => if c = ' ' then '-' else c)

/-- Fragment of a location as a function of category and title: empty for a
page, the dashed title followed by `-1` for a section, the title itself for a
type or a function. -/
def fragment (category title : String) : Option String :=
  if category = "page" then some ""
  else if category = "section" then some (dashed title ++ "-1")
  else if category = "type" ∨ category = "function" then some title
  else none

/-- The location computed from page, title and category:
`file(page) ++ "#" ++ fragment`. -/
def locationOf (page title category : String) : Option String :=
  match file page, fragment category title with
  | some f, some g => some (f ++ "#" ++ g)
  | _, _ => none

/-- The location computed from the page, title and category fields of an entry. -/
def computedLocation (v : JSON) : Option String :=
  match v.field "page", v.field "title", v.field "category" with
  | some p, some t, some c => locationOf p t c
  | _, _, _ => none

/-- Whether entry `i` is a page record of page `p`: its page is `p` and its
category is `"page"`. -/
def isPageRecordOf (p : String) (i : Nat) : Prop :=
  fieldAt i "page" = some p ∧ fieldAt i "category" = some "page"

instance (p : String) (i : Nat) : Decidable (isPageRecordOf p i) :=
  inferInstanceAs (Decidable (_ ∧ _))

/-- A record without any term in its title: both runs of `I/O` are shorter
than 2 characters. -/
def ioRecord : Record :=
  ⟨"io.html#I/O-1", "Input", "I/O", .sect, "Reading and writing byte streams"⟩

/-! ## Character lemmas -/

/-- Lowercasing an upper-case letter gives an alphanumeric character that
lowercasing leaves unchanged. -/
theorem toLower_of_upper (c : Char) (h : 65 ≤ c.toNat ∧ c.toNat ≤ 90) :
    c.toLower.isAlphanum = true ∧ c.toLower.toLower = c.toLower := by
  have hc : c = Char.ofNat c.toNat := (Char.ofNat_toNat c).symm
  obtain ⟨h1, h2⟩ := h
  generalize c.toNat = n at hc h1 h2
  subst hc
  interval_cases n <;> decide

theorem toLower_of_not_upper (c : Char) (h : ¬ (65 ≤ c.toNat ∧ c.toNat ≤ 90)) : c.toLower = c := by
  unfold Char.toLower
  simp only [ge_iff_le]
  rw [if_neg h]

theorem isAlphanum_toLower (c : Char) (h : c.isAlphanum = true) : c.toLower.isAlphanum = true := by
  by_cases hu : 65 ≤ c.toNat ∧ c.toNat ≤ 90
  · exact (toLower_of_upper c hu).1
  · rw [toLower_of_not_upper c hu]; exact h

theorem toLower_toLower (c : Char) : c.toLower.toLower = c.toLower := by
  by_cases hu : 65 ≤ c.toNat ∧ c.toNat ≤ 90
  · exact (toLower_of_upper c hu).2
  · rw [toLower_of_not_upper c hu, toLower_of_not_upper c hu]

/-! ## Tokenizer lemmas -/

theorem mem_closeRun {run : List Char} {pos : Nat} {ro : List Char × Nat}
    (h : ro ∈ closeRun run pos) : ro.1 = run.reverse := by
  unfold closeRun at h
  split at h
  · simp at h
  · simp only [List.mem_singleton] at h
    rw [h]

/-- Every run produced by `splitRuns` consists of alphanumeric characters. -/
theorem splitRuns_alnum : ∀ (cs : List Char) (pos : Nat) (run : List Char),
    (∀ c ∈ run, c.isAlphanum = true) →
    ∀ ro ∈ splitRuns cs pos run, ∀ c ∈ ro.1, c.isAlphanum = true
  | [], pos, run, hrun, ro, hro, c, hc => by
    have h := mem_closeRun (show ro ∈ closeRun run pos from hro)
    rw [h] at hc
    exact hrun c (List.mem_reverse.mp hc)
  | d :: cs, pos, run, hrun, ro, hro, c, hc => by
    unfold splitRuns at hro
    split at hro
    · rename_i hd
      refine splitRuns_alnum cs (pos + 1) (d :: run) ?_ ro hro c hc
      intro x hx
      rcases List.mem_cons.mp hx with rfl | hx
      · exact hd
      · exact hrun x hx
    · rcases List.mem_append.mp hro with h | h
      · have h := mem_closeRun h
        rw [h] at hc
        exact hrun c (List.mem_reverse.mp hc)
      · exact splitRuns_alnum cs (pos + 1) [] (by simp) ro h c hc

/-- On a string of alphanumeric characters `splitRuns` closes a single run. -/
theorem splitRuns_of_alnum : ∀ (cs : List Char) (pos : Nat) (run : List Char),
    (∀ c ∈ cs, c.isAlphanum = true) →
    splitRuns cs pos run = closeRun (cs.reverse ++ run) (pos + cs.length)
  | [], pos, run, _ => by simp [splitRuns]
  | d :: cs, pos, run, h => by
    have hd : d.isAlphanum = true := h d (List.mem_cons_self _ _)
    have ih := splitRuns_of_alnum cs (pos + 1) (d :: run)
      (fun c hc => h c (List.mem_cons_of_mem _ hc))
    unfold splitRuns
    rw [if_pos hd, ih]
    simp [Nat.add_assoc, Nat.add_comm 1]

/-- A term of any text is a token of itself: tokenizing the term gives back
the term alone, at offset 0. -/
theorem tokenize_term {s t : String} (ht : t ∈ terms s) : tokenize t = [(t, 0)] := by
  unfold terms tokenize at ht
  obtain ⟨tk, htk, rfl⟩ := List.mem_map.mp ht
  obtain ⟨hmap, hkeep⟩ := List.mem_filter.mp htk
  obtain ⟨ro, hmem, rfl⟩ := List.mem_map.mp hmap
  obtain ⟨run, off'⟩ := ro
  simp only at hkeep ⊢
  generalize ht : String.mk (List.map Char.toLower run) = t at hkeep ⊢
  have hrun : ∀ c ∈ run, c.isAlphanum = true :=
    fun c hc => splitRuns_alnum s.data 0 [] (by simp) (run, off') hmem c hc
  have hdata : t.data = run.map Char.toLower := by rw [← ht]
  have halnum : ∀ c ∈ t.data, c.isAlphanum = true := by
    intro c hc
    rw [hdata] at hc
    obtain ⟨d, hd, rfl⟩ := List.mem_map.mp hc
    exact isAlphanum_toLower d (hrun d hd)
  have hlower : t.data.map Char.toLower = t.data := by
    rw [hdata, List.map_map]
    apply List.map_congr_left
    intro c _
    exact toLower_toLower c
  have hlen : 2 ≤ t.data.length := by
    have := hkeep
    unfold keepTerm at this
    simp only [Bool.and_eq_true, decide_eq_true_eq] at this
    exact this.1
  have hne : (t.data.reverse).isEmpty = false := by
    cases hd : t.data with
    | nil => rw [hd] at hlen; simp at hlen
    | cons a l => simp
  unfold tokenize
  rw [splitRuns_of_alnum t.data 0 [] halnum]
  simp only [List.append_nil, closeRun, hne, Bool.false_eq_true, if_false, List.reverse_reverse,
    List.length_reverse, Nat.zero_add, Nat.sub_self, List.map_cons, List.map_nil, hlower]
  have hmk : String.mk t.data = t := rfl
  rw [hmk]
  simp [List.filter, hkeep]

theorem terms_term {s t : String} (ht : t ∈ terms s) : terms t = [t] := by
  unfold terms
  rw [tokenize_term ht]
  rfl

theorem queryTerms_term {s t : String} (ht : t ∈ terms s) : queryTerms t = [t] := by
  unfold queryTerms
  rw [terms_term ht]
  rfl


/-! ## Index Builder lemmas -/

theorem buildIndex_ok {rs : List Record} (h : (rs.map Record.location).Nodup) :
    buildIndex rs = .ok ⟨rs, buildEntries rs 0⟩ :=
  if_pos h

theorem buildIndex_eq_ok {rs : List Record} {idx : InvertedIndex}
    (h : buildIndex rs = .ok idx) :
    (rs.map Record.location).Nodup ∧ idx = ⟨rs, buildEntries rs 0⟩ := by
  unfold buildIndex at h
  split at h
  · rename_i hnd
    injection h with h
    exact ⟨hnd, h.symm⟩
  · cases h

/-- A term of a title has a title posting in the field postings. -/
theorem mem_fieldPostings (id : Nat) (f : Field) {s t : String} (ht : t ∈ terms s) :
    ∃ p, (t, p) ∈ fieldPostings id f s ∧ p.recordId = id := by
  refine ⟨⟨id, f, ((tokenize s).filter fun tk => tk.1 == t).map Prod.snd⟩, ?_, rfl⟩
  unfold fieldPostings
  exact List.mem_map.mpr ⟨t, List.mem_dedup.mpr ht, rfl⟩

/-- The record at position `i` contributes, for each term of its title, an
entry whose record id is `id + i`. -/
theorem mem_buildEntries : ∀ (rs : List Record) (id i : Nat) (r : Record) (t : String),
    rs[i]? = some r → t ∈ terms r.title →
    ∃ p, (t, p) ∈ buildEntries rs id ∧ p.recordId = id + i
  | [], _, i, r, _, h, _ => by simp at h
  | r' :: rs, id, 0, r, t, h, ht => by
    simp only [List.getElem?_cons_zero, Option.some.injEq] at h
    subst h
    obtain ⟨p, hp, hid⟩ := mem_fieldPostings id Field.title ht
    refine ⟨p, ?_, by simpa using hid⟩
    unfold buildEntries recordPostings
    exact List.mem_append_left _ (List.mem_append_left _ hp)
  | r' :: rs, id, i + 1, r, t, h, ht => by
    simp only [List.getElem?_cons_succ] at h
    obtain ⟨p, hp, hid⟩ := mem_buildEntries rs (id + 1) i r t h ht
    refine ⟨p, ?_, by omega⟩
    unfold buildEntries
    exact List.mem_append_right _ hp

/-! ## Query Engine lemmas -/

theorem isPrefixOf_self (l : List Char) : l.isPrefixOf l = true := by
  induction l with
  | nil => rfl
  | cons a l ih => simp [List.isPrefixOf, ih]

theorem matchedTerms_single {idx : InvertedIndex} {id : Nat} {t : String} {p : Posting}
    (hp : (t, p) ∈ idx.entries) (hid : p.recordId = id) :
    matchedTerms idx id [t] = [t] := by
  have hm : (t, p) ∈ matchesOf idx id t := by
    unfold matchesOf
    refine List.mem_filter.mpr ⟨hp, ?_⟩
    simp [hid, isPrefixOf_self]
  have hne : (matchesOf idx id t).isEmpty = false := by
    cases h : matchesOf idx id t with
    | nil => rw [h] at hm; simp at hm
    | cons a l => rfl
  simp [matchedTerms, List.filter, hne]

/-- A record at position `i` of the remaining store that is matched by some
query term is among the candidates. -/
theorem mem_candidatesFrom (idx : InvertedIndex) (qs : List String) :
    ∀ (rs : List Record) (id i : Nat) (r : Record), rs[i]? = some r →
    (matchedTerms idx (id + i) qs).isEmpty = false →
    r.location ∈ (candidatesFrom idx qs rs id).map ScoredResult.location
  | [], _, i, r, h, _ => by simp at h
  | r' :: rs, id, 0, r, h, hm => by
    simp only [List.getElem?_cons_zero, Option.some.injEq] at h
    subst h
    simp only [Nat.add_zero] at hm
    unfold candidatesFrom
    simp [hm]
  | r' :: rs, id, i + 1, r, h, hm => by
    simp only [List.getElem?_cons_succ] at h
    have hm' : (matchedTerms idx (id + 1 + i) qs).isEmpty = false := by
      rw [show id + 1 + i = id + (i + 1) by omega]; exact hm
    have ih := mem_candidatesFrom idx qs rs (id + 1) i r h hm'
    unfold candidatesFrom
    split
    · exact ih
    · exact List.mem_map.mpr (List.mem_cons_of_mem _ (List.mem_map.mp ih).choose_spec.1 |>
        fun hmem => ⟨_, hmem, (List.mem_map.mp ih).choose_spec.2⟩)

/-- The candidate locations form a sublist of the store locations. -/
theorem candidatesFrom_sublist (idx : InvertedIndex) (qs : List String) :
    ∀ (rs : List Record) (id : Nat),
    List.Sublist ((candidatesFrom idx qs rs id).map ScoredResult.location)
      (rs.map Record.location)
  | [], _ => by simp [candidatesFrom]
  | r :: rs, id => by
    have ih := candidatesFrom_sublist idx qs rs (id + 1)
    unfold candidatesFrom
    split
    · exact List.Sublist.cons _ ih
    · simp only [List.map_cons]
      exact List.Sublist.cons₂ _ ih

theorem candidatesFrom_length_le (idx : InvertedIndex) (qs : List String)
    (rs : List Record) (id : Nat) : (candidatesFrom idx qs rs id).length ≤ rs.length := by
  have h := (candidatesFrom_sublist idx qs rs id).length_le
  simpa using h

/-- Without query terms no record is touched. -/
theorem candidatesFrom_nil (idx : InvertedIndex) :
    ∀ (rs : List Record) (id : Nat), candidatesFrom idx [] rs id = []
  | [], _ => rfl
  | r :: rs, id => by
    unfold candidatesFrom
    simp [matchedTerms, candidatesFrom_nil idx rs (id + 1)]

/-- When no index entry is matched by a query term, no record is touched. -/
theorem candidatesFrom_no_match (idx : InvertedIndex) (qs : List String)
    (h : ∀ q ∈ qs, ∀ e ∈ idx.entries, q.data.isPrefixOf e.1.data = false) :
    ∀ (rs : List Record) (id : Nat), candidatesFrom idx qs rs id = []
  | [], _ => rfl
  | r :: rs, id => by
    have hm : matchedTerms idx id qs = [] := by
      unfold matchedTerms
      apply List.filter_eq_nil_iff.mpr
      intro q hq
      have : matchesOf idx id q = [] := by
        unfold matchesOf
        apply List.filter_eq_nil_iff.mpr
        intro e he
        simp [h q hq e he]
      simp [this]
    unfold candidatesFrom
    simp [hm, candidatesFrom_no_match idx qs h rs (id + 1)]

/-- The outcome of a search with a positive limit. -/
theorem search_pos (idx : InvertedIndex) (query : String) {limit : Int} (h : 0 < limit) :
    search idx query limit = .ok (((candidatesFrom idx (queryTerms query) idx.records 0).insertionSort
      ranksBefore).take limit.toNat) := by
  unfold search
  rw [if_neg (not_le.mpr h)]

/-! ## The shipped array -/

/-- C1: the 17 entries of `documenterSearchIndex.docs` have pairwise distinct
locations: for positions `i ≠ j` both entries have a location and the two
differ.  Hence the Record Store read from the array has 17 records with
duplicate-free locations and index building does not fail with
`DuplicateLocationError`. -/
theorem shipped_locations_unique :
    docs.length = 17 ∧
    (∀ i j : Fin 17, i ≠ j →
      (fieldAt i "location").isSome ∧ fieldAt i "location" ≠ fieldAt j "location") ∧
    shippedRecords.length = 17 ∧
    (shippedRecords.map Record.location).Nodup ∧
    ∃ idx, buildIndex shippedRecords = .ok idx := by
  have hnd : (shippedRecords.map Record.location).Nodup := by decide
  refine ⟨by decide, by decide, by decide, hnd, ?_⟩
  exact ⟨_, if_pos hnd⟩

/-- C2: every one of the 17 entries of `documenterSearchIndex.docs` has a
category, and it is one of the four strings "page", "section", "type", "function". -/
theorem shipped_categories_in_enum :
    docs.length = 17 ∧
    ∀ v ∈ docs, ∃ c ∈ ["page", "section", "type", "function"],
      v.field "category" = some c := by
  decide

/-- C3: `documenterSearchIndex` is an object with the single key "docs" bound
to an array of 17 entries; every entry is an object with exactly the five
fields location, page, title, category, text, each bound to a string.  No
entry is malformed: ingestion yields 17 records and no warning. -/
theorem shipped_records_well_formed :
    (∃ xs, documenterSearchIndex = .obj [("docs", .arr xs)] ∧ xs = docs ∧ xs.length = 17) ∧
    (∀ v ∈ docs, ∃ l p t c x, v = .obj [("location", .str l), ("page", .str p),
      ("title", .str t), ("category", .str c), ("text", .str x)]) ∧
    (ingest docs).2 = [] ∧ (ingest docs).1.length = 17 := by
  refine ⟨⟨_, rfl, rfl, by decide⟩, ?_, by decide, by decide⟩
  intro v hv
  have hd : docs = [doc0, doc1, doc2, doc3, doc4, doc5, doc6, doc7, doc8, doc9, doc10,
      doc11, doc12, doc13, doc14, doc15, doc16] := rfl
  rw [hd] at hv
  simp only [List.mem_cons, List.mem_nil_iff, or_false] at hv
  rcases hv with h | h | h | h | h | h | h | h | h | h | h | h | h | h | h | h | h <;>
    rw [h] <;> exact ⟨_, _, _, _, _, rfl⟩

/-- C8 (as stated): entry 8 of the array has category "type", so not every
entry has category "page" or "section". -/
theorem shipped_category_not_only_page_or_section :
    fieldAt 8 "category" = some "type" ∧
    ¬ ∀ v ∈ docs, v.field "category" = some "page" ∨ v.field "category" = some "section" := by
  decide

/-- C8 (amended): every entry of the array has category "page" or "section",
or else it has category "type" or "function" and belongs to page "References";
every entry of page "Home" has category "page" or "section". -/
theorem shipped_category_page_section_or_reference_item :
    (∀ v ∈ docs,
      (v.field "category" = some "page" ∨ v.field "category" = some "section") ∨
      ((v.field "category" = some "type" ∨ v.field "category" = some "function") ∧
        v.field "page" = some "References")) ∧
    (∀ v ∈ docs, v.field "page" = some "Home" →
      v.field "category" = some "page" ∨ v.field "category" = some "section") := by
  decide

/-- C9: for every entry of the array, the location is
`file(page) ++ "#" ++ fragment`, with `file("Home") = "index.html"`,
`file("References") = "references.html"`, and the fragment empty for a page,
the title with spaces replaced by "-" followed by "-1" for a section, and the
title itself for a type or a function. -/
theorem shipped_location_determined :
    file "Home" = some "index.html" ∧ file "References" = some "references.html" ∧
    ∀ v ∈ docs, (v.field "location").isSome ∧ v.field "location" = computedLocation v := by
  decide

/-- C10: the page values of the array are "Home" and "References"; for each of
them exactly one entry has that page and category "page"; that entry has the
page name as title, empty text and a location ending in "#"; it precedes every
other entry of the page, and the entries of one page are contiguous. -/
theorem shipped_page_record_invariant :
    (∀ i : Fin 17, fieldAt i "page" = some "Home" ∨ fieldAt i "page" = some "References") ∧
    ∀ p ∈ ["Home", "References"],
      ∃ i : Fin 17, isPageRecordOf p i ∧
        (∀ j : Fin 17, isPageRecordOf p j → j = i) ∧
        fieldAt i "title" = some p ∧ fieldAt i "text" = some "" ∧
        ((fieldAt i "location").map fun l => l.data.getLast?) = some (some '#') ∧
        (∀ j : Fin 17, j ≠ i → fieldAt j "page" = some p → i < j) ∧
        (∀ j k l : Fin 17, j < k → k < l → fieldAt j "page" = some p →
          fieldAt l "page" = some p → fieldAt k "page" = some p) := by
  refine ⟨by decide, ?_⟩
  intro p hp
  simp only [List.mem_cons, List.mem_nil_iff, or_false] at hp
  rcases hp with rfl | rfl
  · exact ⟨0, by decide, by decide, by decide, by decide, by decide, by decide, by decide⟩
  · exact ⟨6, by decide, by decide, by decide, by decide, by decide, by decide, by decide⟩

/-! ## The search engine -/

/-- C4 (as stated): the record set consisting of the single record `ioRecord`,
titled "I/O", is valid and has distinct locations, and `buildIndex` succeeds on
it, but its title yields no term, so no single-term query drawn from the title
retrieves it. -/
theorem retrievability_fails_for_title_without_terms :
    ([ioRecord].map Record.location).Nodup ∧
    (∃ idx, buildIndex [ioRecord] = .ok idx) ∧
    terms ioRecord.title = [] ∧
    ¬ ∃ t ∈ terms ioRecord.title, ∃ idx res limit,
      buildIndex [ioRecord] = .ok idx ∧ search idx t limit = .ok res ∧
      ioRecord.location ∈ res.map ScoredResult.location := by
  have ht : terms ioRecord.title = [] := by decide
  refine ⟨by decide, ⟨_, buildIndex_ok (by decide)⟩, ht, ?_⟩
  rw [ht]
  simp

/-- C4 (amended): for every record set with pairwise distinct locations
`buildIndex` succeeds, and for every record `r` of the set and every term `t`
of its title, searching the built index for `t` with a limit not below the
number of records succeeds and returns the location of `r`. -/
theorem title_term_retrieves_record (rs : List Record)
    (hnd : (rs.map Record.location).Nodup) (r : Record) (hr : r ∈ rs)
    (t : String) (ht : t ∈ terms r.title) (limit : Int) (hl : (rs.length : Int) ≤ limit) :
    ∃ idx res, buildIndex rs = .ok idx ∧ search idx t limit = .ok res ∧
      r.location ∈ res.map ScoredResult.location := by
  obtain ⟨i, hi⟩ := List.getElem?_of_mem hr
  have hlen : 0 < rs.length := List.length_pos_of_mem hr
  have hpos : 0 < limit := by omega
  refine ⟨⟨rs, buildEntries rs 0⟩, _, buildIndex_ok hnd, search_pos _ t hpos, ?_⟩
  obtain ⟨p, hp, hid⟩ := mem_buildEntries rs 0 i r t hi ht
  have hm : matchedTerms ⟨rs, buildEntries rs 0⟩ (0 + i) [t] = [t] :=
    matchedTerms_single hp hid
  have hc := mem_candidatesFrom ⟨rs, buildEntries rs 0⟩ [t] rs 0 i r hi (by rw [hm]; rfl)
  rw [queryTerms_term ht]
  have hle : (List.insertionSort ranksBefore
      (candidatesFrom ⟨rs, buildEntries rs 0⟩ [t] rs 0)).length ≤ limit.toNat := by
    rw [List.length_insertionSort]
    have := candidatesFrom_length_le ⟨rs, buildEntries rs 0⟩ [t] rs 0
    omega
  rw [List.take_of_length_le hle]
  exact ((List.perm_insertionSort ranksBefore _).map _).mem_iff.mpr hc

/-- C4 (shipped data): the 17 shipped records have distinct locations and the
title of every one of them yields at least one term, so every shipped record
is returned by a single-term query drawn from its own title (limit 20); the
record at `index.html#Overview-1` is returned by the query "overview", and the
two records titled "References" by the query "references". -/
theorem shipped_titles_retrieve_records :
    (shippedRecords.map Record.location).Nodup ∧
    shippedRecords.length = 17 ∧
    (∀ r ∈ shippedRecords, terms r.title ≠ []) ∧
    (∀ r ∈ shippedRecords, ∃ t ∈ terms r.title, ∃ idx res,
      buildIndex shippedRecords = .ok idx ∧ search idx t 20 = .ok res ∧
      r.location ∈ res.map ScoredResult.location) ∧
    (∃ idx res, buildIndex shippedRecords = .ok idx ∧ search idx "overview" 20 = .ok res ∧
      "index.html#Overview-1" ∈ res.map ScoredResult.location) ∧
    (∃ idx res, buildIndex shippedRecords = .ok idx ∧ search idx "references" 20 = .ok res ∧
      "references.html#" ∈ res.map ScoredResult.location) ∧
    (∃ idx res, buildIndex shippedRecords = .ok idx ∧ search idx "references" 20 = .ok res ∧
      "references.html#References-1" ∈ res.map ScoredResult.location) := by
  have hnd : (shippedRecords.map Record.location).Nodup := by decide
  have hterms : ∀ r ∈ shippedRecords, terms r.title ≠ [] := by decide
  refine ⟨hnd, by decide, hterms, ?_,
    title_term_retrieves_record shippedRecords hnd (shippedRecords.get ⟨2, by decide⟩)
      (List.get_mem _ _ _) "overview" (by decide) 20 (by decide),
    title_term_retrieves_record shippedRecords hnd (shippedRecords.get ⟨6, by decide⟩)
      (List.get_mem _ _ _) "references" (by decide) 20 (by decide),
    title_term_retrieves_record shippedRecords hnd (shippedRecords.get ⟨7, by decide⟩)
      (List.get_mem _ _ _) "references" (by decide) 20 (by decide)⟩
  intro r hr
  obtain ⟨t, ht⟩ := List.exists_mem_of_ne_nil _ (hterms r hr)
  exact ⟨t, ht, title_term_retrieves_record shippedRecords hnd r hr t ht 20 (by decide)⟩

/-- C5: for every index, query and positive limit the search succeeds and its
results are sorted by descending score, equal scores in ascending location
order; when the locations of the Record Store of the index are pairwise
distinct (as for every index `buildIndex` returns), equal-score results are in
strictly ascending location order, and for adjacent results `a`, `b` either
`a.score > b.score`, or `a.score = b.score` and `a.location < b.location`. -/
theorem search_results_ordered (idx : InvertedIndex) (query : String) (limit : Int)
    (hl : 0 < limit) :
    ∃ res, search idx query limit = .ok res ∧
      res.Pairwise (fun a b => b.score ≤ a.score ∧
        (a.score = b.score → a.location ≤ b.location)) ∧
      ((idx.records.map Record.location).Nodup →
        res.Pairwise (fun a b => b.score ≤ a.score ∧
          (a.score = b.score → a.location < b.location)) ∧
        res.Chain' (fun a b => b.score < a.score ∨
          (a.score = b.score ∧ a.location < b.location))) := by
  refine ⟨_, search_pos idx query hl, ?_, ?_⟩
  · have hsorted : ((candidatesFrom idx (queryTerms query) idx.records 0).insertionSort
        ranksBefore).Pairwise ranksBefore := List.sorted_insertionSort ranksBefore _
    refine (hsorted.sublist (List.take_sublist limit.toNat _)).imp ?_
    rintro a b (h | ⟨hs, hle⟩)
    · exact ⟨le_of_lt h, fun he => absurd h (by rw [he]; exact lt_irrefl _)⟩
    · exact ⟨le_of_eq hs.symm, fun _ => hle⟩
  · intro hnd
    have hsub := candidatesFrom_sublist idx (queryTerms query) idx.records 0
    generalize candidatesFrom idx (queryTerms query) idx.records 0 = cands at hsub
    have hsorted : (cands.insertionSort ranksBefore).Pairwise ranksBefore :=
      List.sorted_insertionSort ranksBefore cands
    have hndc : ((cands.insertionSort ranksBefore).map ScoredResult.location).Nodup :=
      ((List.perm_insertionSort ranksBefore cands).map _).nodup_iff.mpr (hnd.sublist hsub)
    have hne : (cands.insertionSort ranksBefore).Pairwise
        (fun a b => a.location ≠ b.location) := (List.pairwise_map).mp hndc
    have hstrict : (cands.insertionSort ranksBefore).Pairwise
        (fun a b => b.score < a.score ∨ (a.score = b.score ∧ a.location < b.location)) := by
      refine (hsorted.and hne).imp ?_
      rintro a b ⟨h | ⟨hs, hle⟩, hn⟩
      · exact Or.inl h
      · exact Or.inr ⟨hs, lt_of_le_of_ne hle hn⟩
    have htake := hstrict.sublist (List.take_sublist limit.toNat _)
    refine ⟨htake.imp ?_, htake.chain'⟩
    rintro a b (h | ⟨hs, hlt⟩)
    · exact ⟨le_of_lt h, fun he => absurd h (by rw [he]; exact lt_irrefl _)⟩
    · exact ⟨le_of_eq hs.symm, fun _ => hlt⟩

/-- C5 (instance): the index of the end-to-end example, query "machine",
limit 10: the limit is positive, the locations of the Record Store are
distinct, and the results are in the stated order. -/
theorem search_results_ordered_example :
    (0 : Int) < 10 ∧ ((exampleIndex .sect .sect).records.map Record.location).Nodup ∧
    ∃ res, search (exampleIndex .sect .sect) "machine" 10 = .ok res ∧
      res.Pairwise (fun a b => b.score ≤ a.score ∧
        (a.score = b.score → a.location ≤ b.location)) ∧
      (((exampleIndex .sect .sect).records.map Record.location).Nodup →
        res.Pairwise (fun a b => b.score ≤ a.score ∧
          (a.score = b.score → a.location < b.location)) ∧
        res.Chain' (fun a b => b.score < a.score ∨
          (a.score = b.score ∧ a.location < b.location))) :=
  ⟨by decide, by decide,
    search_results_ordered (exampleIndex .sect .sect) "machine" 10 (by decide)⟩

/-- C6: for every index and query, `search` fails with `InvalidLimitError`
whenever `limit ≤ 0` (also for the query "x", which has no term); for every
`limit > 0` it returns at most `limit` results without error, and none when the
query has no term (as "", "x" or the all-stopword "the of a") or when no indexed
term equals or starts with a query term (as "zzzznotfound" on the index of the
end-to-end example). -/
theorem search_limit_and_empty_query (idx : InvertedIndex) (query : String) (limit : Int) :
    (limit ≤ 0 → search idx query limit = .error .InvalidLimitError ∧
      search idx "x" limit = .error .InvalidLimitError) ∧
    (0 < limit → ∃ res, search idx query limit = .ok res ∧ (res.length : Int) ≤ limit ∧
      (tokenize query = [] → res = []) ∧
      ((∀ q ∈ queryTerms query, ∀ e ∈ idx.entries, q.data.isPrefixOf e.1.data = false) →
        res = [])) ∧
    tokenize "" = [] ∧ tokenize "x" = [] ∧ tokenize "the of a" = [] ∧
    (0 < limit → search idx "" limit = .ok [] ∧ search idx "x" limit = .ok []) ∧
    search (exampleIndex .sect .sect) "zzzznotfound" 10 = .ok [] ∧
    search (exampleIndex .sect .sect) "x" 0 = .error .InvalidLimitError := by
  have hempty : ∀ (i : InvertedIndex) (q : String) (l : Int), 0 < l → tokenize q = [] →
      search i q l = .ok [] := by
    intro i q l hl hq
    rw [search_pos i q hl]
    simp [queryTerms, terms, hq, candidatesFrom_nil]
  have hnone : ∀ (i : InvertedIndex) (q : String) (l : Int), 0 < l →
      (∀ t ∈ queryTerms q, ∀ e ∈ i.entries, t.data.isPrefixOf e.1.data = false) →
      search i q l = .ok [] := by
    intro i q l hl hq
    rw [search_pos i q hl, candidatesFrom_no_match i _ hq]
    simp
  have hx : tokenize "x" = [] := by decide
  have he : tokenize "" = [] := by decide
  refine ⟨fun h => ⟨if_pos h, if_pos h⟩, ?_, he, hx, by decide,
    fun h => ⟨hempty idx "" limit h he, hempty idx "x" limit h hx⟩,
    hnone _ _ 10 (by decide) (by decide), if_pos (by decide)⟩
  intro hl
  refine ⟨_, search_pos idx query hl, ?_, ?_, ?_⟩
  · have := List.length_take_le limit.toNat
      ((candidatesFrom idx (queryTerms query) idx.records 0).insertionSort ranksBefore)
    omega
  · intro hq
    have h := hempty idx query limit hl hq
    rw [search_pos idx query hl] at h
    injection h
  · intro hq
    have h := hnone idx query limit hl hq
    rw [search_pos idx query hl] at h
    injection h

/-- C7 (as stated): whatever the categories of the two example records, on the
index built from them the query "machine" with limit 10 does not return the two
records with equal scores in the order ["a#1", "a#2"]: the locations come in
the order ["a#2", "a#1"]. -/
theorem example_machine_not_tied :
    ¬ ∃ c₁ c₂ idx res, buildIndex (exampleRecords c₁ c₂) = .ok idx ∧
      search idx "machine" 10 = .ok res ∧
      res.map ScoredResult.location = ["a#1", "a#2"] ∧
      ∀ a ∈ res, ∀ b ∈ res, a.score = b.score := by
  rintro ⟨c₁, c₂, idx, res, hidx, hres, hloc, -⟩
  obtain ⟨-, rfl⟩ := buildIndex_eq_ok hidx
  have h : resultLocations (search (exampleIndex c₁ c₂) "machine" 10) = some ["a#2", "a#1"] := by
    cases c₁ <;> cases c₂ <;> decide!
  have h₂ : resultLocations (search (exampleIndex c₁ c₂) "machine" 10) =
      some ["a#1", "a#2"] := by
    show resultLocations (search ⟨exampleRecords c₁ c₂, buildEntries (exampleRecords c₁ c₂) 0⟩
      "machine" 10) = _
    rw [hres, ← hloc]; rfl
  rw [h] at h₂
  exact absurd h₂ (by decide)

/-- C7 (amended): the two example records have distinct locations and
`buildIndex` succeeds on them; on the built index `search(index, "machine", 10)`
returns both records, `a#2` first with the strictly higher score (its text has
the term itself, the text of `a#1` only a term starting with it), and
`search(index, "Compilers", 10)` returns only `a#2`. -/
theorem example_end_to_end (c₁ c₂ : Category) :
    buildIndex (exampleRecords c₁ c₂) = .ok (exampleIndex c₁ c₂) ∧
    resultLocations (search (exampleIndex c₁ c₂) "machine" 10) = some ["a#2", "a#1"] ∧
    resultScores (search (exampleIndex c₁ c₂) "machine" 10) = some [101, 201 / 2] ∧
    resultLocations (search (exampleIndex c₁ c₂) "Compilers" 10) = some ["a#2"] ∧
    resultScores (search (exampleIndex c₁ c₂) "Compilers" 10) = some [103] := by
  refine ⟨buildIndex_ok (by cases c₁ <;> cases c₂ <;> decide), ?_, ?_, ?_, ?_⟩ <;>
    cases c₁ <;> cases c₂ <;> decide!

/-- C11: title does not identify a record.  Entries 6 and 7 of the array are
distinct, both have page "References" and title "References", and they differ
in category ("page" and "section") and in location.  So neither the title nor
the pair (page, title) is injective on the 17 entries, while the location is. -/
theorem shipped_title_not_injective :
    (fieldAt 6 "page" = some "References" ∧ fieldAt 7 "page" = some "References" ∧
      fieldAt 6 "title" = some "References" ∧ fieldAt 7 "title" = some "References" ∧
      fieldAt 6 "category" = some "page" ∧ fieldAt 7 "category" = some "section" ∧
      fieldAt 6 "location" = some "references.html#" ∧
      fieldAt 7 "location" = some "references.html#References-1") ∧
    (∃ i j : Fin 17, i ≠ j ∧ fieldAt i "page" = fieldAt j "page" ∧
      fieldAt i "title" = fieldAt j "title" ∧
      fieldAt i "category" ≠ fieldAt j "category" ∧
      fieldAt i "location" ≠ fieldAt j "location") ∧
    (¬ ∀ i j : Fin 17, fieldAt i "title" = fieldAt j "title" → i = j) ∧
    (¬ ∀ i j : Fin 17, fieldAt i "page" = fieldAt j "page" →
      fieldAt i "title" = fieldAt j "title" → i = j) ∧
    (∀ i j : Fin 17, fieldAt i "location" = fieldAt j "location" → i = j) := by
  refine ⟨by decide, ⟨6, 7, by decide⟩, by decide, by decide, by decide⟩

end SearchIndex
